import Mathlib

/-!
Shallow embedding of the sparse-mask lifecycle of the fedPrune repository
(src/adapter/models.py and src/dst_adapter.py).

Tensors are flattened into lists: weights and gradients are lists of
rationals, masks are lists of booleans.  Division by zero in `ℚ` returns 0,
which coincides with the source's `torch.nan_to_num(·, nan=0, posinf=0,
neginf=0)` post-processing of every division performed during aggregation,
so the junk-value convention of `ℚ` models the NaN/Inf coercion exactly.
-/

namespace FedPrune

/-- pruning_type option: 'hard' or 'soft' (dst_adapter.py:55). -/
inductive PruningType
  | hard
  | soft
deriving DecidableEq

/-- Booleans as the 0/1 rationals they become under tensor arithmetic. -/
def b2q (b : Bool) : ℚ := if b then 1 else 0

/-- Scatter-update of a rational tensor: positions listed in `idxs` are set
to `v`, as in `param.data.view(n)[indices] = v` (models.py:175,218). -/
def setAtQ (xs : List ℚ) (idxs : List ℕ) (v : ℚ) : List ℚ :=
  (List.range xs.length).map fun i => if i ∈ idxs then v else xs.getD i 0

/-- Scatter-update of a boolean mask tensor: positions listed in `idxs` are
set to `v`, as in `buf.view(n)[indices] = v` (models.py:180,221). -/
def setAtB (xs : List Bool) (idxs : List ℕ) (v : Bool) : List Bool :=
  (List.range xs.length).map fun i => if i ∈ idxs then v else xs.getD i false

/-- The pair with the least second component among `b :: xs`, earlier
occurrences winning ties.  Building block for
`torch.topk(..., largest=False)`. -/
def minPair (b : ℕ × ℚ) : List (ℕ × ℚ) → ℕ × ℚ
  | [] => b
  | x :: xs => minPair (if b.2 ≤ x.2 then b else x) xs

/-- Indices of the `k` least values among the pairs, by repeatedly removing
a minimal pair.  The order among equal values is a don't-care, matching the
unspecified tie behavior of `torch.topk`. -/
def topkPairs : ℕ → List (ℕ × ℚ) → List ℕ
  | 0, _ => []
  | _ + 1, [] => []
  | k + 1, p :: ps =>
    let q := minPair p ps
    q.1 :: topkPairs k ((p :: ps).filter fun x => decide (x.1 ≠ q.1))

/-- Indices of the `k` smallest entries of `key`:
`torch.topk(key, k, largest=False)` for a non-negative key tensor. -/
def topkSmallestIdx (key : List ℚ) (k : ℕ) : List ℕ :=
  topkPairs k ((List.range key.length).map fun i => (i, key.getD i 0))

/-- A prunable layer: one weight tensor, its gradient, and its mask buffer
(registered by initialize_mask, models.py:19-36). -/
structure Layer where
  weight : List ℚ
  grad : List ℚ
  mask : List Bool
deriving DecidableEq

/-- Number of active (nonzero) mask bits: `buf.count_nonzero()`. -/
def countTrue (mask : List Bool) : ℕ := mask.count true

/-- Indices selected for pruning:
`torch.topk(torch.abs(param.data.flatten()), n_prune, largest=False)`
(models.py:171). -/
def pruneSel (l : Layer) (k : ℕ) : List ℕ :=
  topkSmallestIdx (l.weight.map fun x => |x|) k

/-- Indices selected for growth:
`torch.topk(torch.abs(param.grad.flatten()), n_grow, largest=True)`
(models.py:214-215); the k largest absolute gradients are the k smallest
negated absolute gradients. -/
def growSel (l : Layer) (k : ℕ) : List ℕ :=
  topkSmallestIdx (l.grad.map fun x => -|x|) k

/-- PrunableNet.layer_prune restricted to one layer with its per-layer
target active count already computed (models.py:155-180).
n_total is the element count of the layer's mask buffer;
`n_prune = n_total - target`; skip when `n_prune >= n_total or n_prune < 0`;
otherwise the n_prune smallest-absolute-value weight positions get mask 0,
and additionally weight 0 under 'hard' pruning. -/
def layerPrune (pt : PruningType) (target : ℤ) (l : Layer) : Layer :=
  let nTotal : ℤ := l.mask.length
  let nPrune : ℤ := nTotal - target
  if nPrune ≥ nTotal ∨ nPrune < 0 then l
  else
    let sel := pruneSel l nPrune.toNat
    { l with
      weight := if pt = PruningType.hard then setAtQ l.weight sel 0 else l.weight
      mask := setAtB l.mask sel false }

/-- PrunableNet.layer_grow restricted to one layer with its per-layer target
active count already computed (models.py:198-221).
`n_grow = target - count_nonzero(mask)`; skip when negative; otherwise the
n_grow largest-absolute-gradient positions (over the whole tensor, not only
the inactive ones) get weight 0 and mask 1. -/
def layerGrow (target : ℤ) (l : Layer) : Layer :=
  let nGrow : ℤ := target - (countTrue l.mask : ℤ)
  if nGrow < 0 then l
  else
    let sel := growSel l nGrow.toNat
    { l with
      weight := setAtQ l.weight sel 0
      mask := setAtB l.mask sel true }

/-- State of a network with a single mask-bearing weight tensor plus its
unmasked parameters (bias), the unit handled by reset_weights. -/
structure NetState where
  weight : List ℚ
  mask : List Bool
  bias : List ℚ
deriving DecidableEq

/-- PrunableNet.reset_weights (models.py:313-394) on a `NetState`.
Source selection follows models.py:328-345; per masked parameter, the new
value starts from the local tensor, positions where `mask_to_apply` is set
are overwritten from the parameter source, and the rest are zeroed only
under 'hard' pruning (models.py:359-373).  The local mask buffer is
overwritten in place by `copy_` through the alias created at models.py:377,
so the `torch.equal` test at models.py:381 compares the freshly copied
buffer against `mask_to_copy`; the embedding reproduces that read order. -/
def resetWeights (net : NetState) (globalState : Option NetState)
    (useGlobalMask globalCommunicationMask : Bool) (pt : PruningType) :
    NetState × Bool :=
  let localState := net
  let paramSource :=
    match globalState with
    | none => localState
    | some g => g
  let applyMaskSource := if useGlobalMask then paramSource else localState
  let copyMaskSource := if globalCommunicationMask then localState else applyMaskSource
  let maskToApply := applyMaskSource.mask
  let maskToCopy := copyMaskSource.mask
  let newWeight := (List.range localState.weight.length).map fun j =>
    if maskToApply.getD j false then paramSource.weight.getD j 0
    else if pt = PruningType.hard then 0 else localState.weight.getD j 0
  let newMask := maskToCopy
  let maskChanged := decide (¬ (newMask = maskToCopy))
  ({ weight := newWeight, mask := newMask, bias := paramSource.bias }, maskChanged)

/-- Upload parameter cost charged at the end of Client.train
(dst_adapter.py:325-328): under fp16,
`(1-sparsity)*mask_size*16 + (param_size - mask_size*16)`, otherwise
`(1-sparsity)*mask_size*32 + (param_size - mask_size*32)`. -/
def ulCostParams (fp16 : Bool) (sparsity : ℚ) (maskSize paramSize : ℕ) : ℚ :=
  if fp16 then
    (1 - sparsity) * maskSize * 16 + ((paramSize : ℚ) - maskSize * 16)
  else
    (1 - sparsity) * maskSize * 32 + ((paramSize : ℚ) - maskSize * 32)

/-- The upload parameter cost as the specification document words it:
`(1−sparsity)·mask_bits·width + (total_param_bits − mask_bits·32)` with
width 16 under fp16 and 32 otherwise.  Stated from the spec, for comparison
with `ulCostParams` which is read off the source. -/
def ulCostSpec (fp16 : Bool) (sparsity : ℚ) (maskSize paramSize : ℕ) : ℚ :=
  let width : ℚ := if fp16 then 16 else 32
  (1 - sparsity) * maskSize * width + ((paramSize : ℚ) - maskSize * 32)

/-- The transmission width of ulCostParams: 16 under fp16, else 32. -/
def ulWidth (fp16 : Bool) : ℚ := if fp16 then 16 else 32

/-- The per-round target sparsity used by the server
(dst_adapter.py:460-463): linear interpolation between args.sparsity and
args.final_sparsity until rate_decay_end, then final_sparsity. -/
def roundSparsity (argsSparsity finalSparsity : ℚ)
    (rateDecayEnd serverRound : ℕ) : ℚ :=
  if serverRound ≤ rateDecayEnd then
    argsSparsity * ((rateDecayEnd : ℚ) - serverRound) / rateDecayEnd
      + finalSparsity * serverRound / rateDecayEnd
  else finalSparsity

/-- The value of Client.train's `sparsity` parameter given the argument the
call site passes, if any; the parameter defaults to args.sparsity
(dst_adapter.py:252). -/
def trainSparsityArg (argsSparsity : ℚ) (callArg : Option ℚ) : ℚ :=
  callArg.getD argsSparsity

/-- The sparsity argument at dst_adapter.py:466: the round loop calls
`client.train(global_params=..., initial_global_params=...)` and passes no
sparsity, so the default applies. -/
def dstAdapterTrainCallArg : Option ℚ := none

/-- The two sparsity targets of the readjustment branch of Client.train
(dst_adapter.py:310-318): prune to `s + (1-s)*args.readjustment_ratio`,
then grow to `s`, where `s` is train's sparsity parameter. -/
def readjustTargets (s readjRatio : ℚ) : ℚ × ℚ :=
  (s + (1 - s) * readjRatio, s)

/-- A sampled client's report, as consumed by the aggregation loop:
its train size (dst_adapter.py:248-249) and, for the mask-bearing
parameter, its weight tensor and mask. -/
structure ClientReport where
  trainSize : ℚ
  weight : List ℚ
  mask : List Bool
deriving DecidableEq

/-- The data one aggregation round operates on, restricted to a single
mask-bearing parameter: the server's prior weight and mask, the sampled
clients' reports, and the run options consumed by the round loop. -/
structure RoundInput where
  gw : List ℚ
  gm : List Bool
  clients : List ClientReport
  rememberOld : Bool
  minVotes : ℚ
  pt : PruningType
  roundSparsityVal : ℚ
  repruneTarget : ℤ
deriving DecidableEq

/-- Accumulated `aggregated_params` at position `j` (dst_adapter.py:507):
sum over sampled clients of `train_size * cl_param * cl_mask`. -/
def sumParamsAt (inp : RoundInput) (j : ℕ) : ℚ :=
  inp.clients.foldl
    (fun acc c => acc + c.trainSize * c.weight.getD j 0 * b2q (c.mask.getD j false)) 0

/-- Accumulated `aggregated_params_for_mask` at position `j`
(dst_adapter.py:508,510-514): the same masked contribution, plus — when
remember_old is set — `train_size * sv_param * sv_mask` where `sv_mask` is
the global mask with the client's claimed positions zeroed out. -/
def sumParamsForMaskAt (inp : RoundInput) (j : ℕ) : ℚ :=
  inp.clients.foldl
    (fun acc c => acc + c.trainSize * c.weight.getD j 0 * b2q (c.mask.getD j false)
      + (if inp.rememberOld then
          c.trainSize * inp.gw.getD j 0 * b2q (inp.gm.getD j false && !(c.mask.getD j false))
        else 0)) 0

/-- Accumulated `aggregated_masks` at position `j`
(dst_adapter.py:509,515): `train_size * cl_mask`, plus `train_size *
sv_mask` when remember_old is set. -/
def sumMasksAt (inp : RoundInput) (j : ℕ) : ℚ :=
  inp.clients.foldl
    (fun acc c => acc + c.trainSize * b2q (c.mask.getD j false)
      + (if inp.rememberOld then
          c.trainSize * b2q (inp.gm.getD j false && !(c.mask.getD j false))
        else 0)) 0

/-- `F.threshold_(aggregated_masks[name], args.min_votes, 0)`
(dst_adapter.py:531): vote counts at or below min_votes become 0. -/
def threshVotesAt (inp : RoundInput) (j : ℕ) : ℚ :=
  if sumMasksAt inp j ≤ inp.minVotes then 0 else sumMasksAt inp j

/-- `aggregated_params[name] /= aggregated_masks[name]` followed by
`torch.nan_to_num(·, 0, 0, 0)` (dst_adapter.py:535,542-543); division by a
zeroed vote count yields 0 in `ℚ` exactly as nan_to_num coerces the NaN/Inf
placeholder to 0. -/
def aggParamAt (inp : RoundInput) (j : ℕ) : ℚ :=
  sumParamsAt inp j / threshVotesAt inp j

/-- `aggregated_params_for_mask[name] /= aggregated_masks[name]`
(dst_adapter.py:536): the remember-augmented view right after the division,
before the line 544 assignment replaces it. -/
def aggParamForMaskPreAt (inp : RoundInput) (j : ℕ) : ℚ :=
  sumParamsForMaskAt inp j / threshVotesAt inp j

/-- dst_adapter.py:544-545:
`aggregated_params_for_mask[name] = torch.nan_to_num(aggregated_params[name], ...)`
— the argument is `aggregated_params`, not `aggregated_params_for_mask`, so
the stored view ends up equal to the nan_to_num of `aggregated_params`. -/
def aggParamForMaskAt (inp : RoundInput) (j : ℕ) : ℚ :=
  aggParamAt inp j

/-- `aggregated_masks[name] /= aggregated_masks[name]` with nan_to_num
(dst_adapter.py:537,546-547): 1 where votes survived, 0 elsewhere. -/
def aggMaskAt (inp : RoundInput) (j : ℕ) : ℚ :=
  threshVotesAt inp j / threshVotesAt inp j

/-- Width of the round's accumulators: zeros_like the global parameter
(dst_adapter.py:432-438). -/
def roundLen (inp : RoundInput) : ℕ := inp.gw.length

/-- The weight tensor loaded into the global model at dst_adapter.py:555,
taken from `aggregated_params_for_mask`. -/
def loadedWeight (inp : RoundInput) : List ℚ :=
  (List.range (roundLen inp)).map fun j => aggParamForMaskAt inp j

/-- The mask loaded into the global model's boolean mask buffer at
dst_adapter.py:549-555: the 0/1 aggregated mask, cast to bool by copy_. -/
def loadedMask (inp : RoundInput) : List Bool :=
  (List.range (roundLen inp)).map fun j => decide (aggMaskAt inp j ≠ 0)

/-- PrunableNet.sparsity (models.py:479-491): one minus the fraction of
active mask bits. -/
def sparsityOf (mask : List Bool) : ℚ :=
  1 - (countTrue mask : ℚ) / (mask.length : ℚ)

/-- The global model's single masked layer right after the load at
dst_adapter.py:555. -/
def globalAfterLoad (inp : RoundInput) : Layer :=
  { weight := loadedWeight inp, grad := [], mask := loadedMask inp }

/-- The global layer after the conditional server-side reprune
(dst_adapter.py:557-561): when the loaded model's sparsity is below the
round's target, layer_prune with the scheduler's per-layer target count
(carried in `repruneTarget`) runs; otherwise nothing happens. -/
def globalAfterReprune (inp : RoundInput) : Layer :=
  if sparsityOf (loadedMask inp) < inp.roundSparsityVal then
    layerPrune inp.pt inp.repruneTarget (globalAfterLoad inp)
  else globalAfterLoad inp

/-- The mask published for the round: `global_params[name + '_mask']` read
back after the reprune (dst_adapter.py:564-567). -/
def publishedMask (inp : RoundInput) : List Bool :=
  (globalAfterReprune inp).mask

/-- The weight tensor published for the round (dst_adapter.py:565-569):
`aggregated_params[name]` with every element outside the new mask forced to
zero, then loaded into the global model. -/
def publishedWeight (inp : RoundInput) : List ℚ :=
  (List.range (roundLen inp)).map fun j =>
    if (publishedMask inp).getD j false then aggParamAt inp j else 0

/-- Round state exercising the remember_old branch: one client of train
size 2 reporting mask 0 at the only position, while the global mask is 1
and the global weight is 7 there. -/
def c1Input : RoundInput :=
  { gw := [7], gm := [true], clients := [{ trainSize := 2, weight := [9], mask := [false] }]
    rememberOld := true, minVotes := 0, pt := PruningType.hard
    roundSparsityVal := 0, repruneTarget := 1 }

/-- The spec's two-client example scenario, parametrized by the common
train size: masks [1,0,1] and [1,1,0], weights [2,_,4] and [3,5,_] (the
masked-out slots hold arbitrary values 9 and 7), min_votes = 1,
remember_old disabled. -/
def c8Input (ts : ℚ) : RoundInput :=
  { gw := [0, 0, 0], gm := [true, true, true]
    clients := [{ trainSize := ts, weight := [2, 9, 4], mask := [true, false, true] },
                { trainSize := ts, weight := [3, 5, 7], mask := [true, true, false] }]
    rememberOld := false, minVotes := 1, pt := PruningType.hard
    roundSparsityVal := 0, repruneTarget := 3 }

/-- Round state in which the only position receives zero votes: one client
whose mask is 0 there, remember_old disabled. -/
def cwInput : RoundInput :=
  { gw := [5], gm := [true], clients := [{ trainSize := 3, weight := [4], mask := [false] }]
    rememberOld := false, minVotes := 0, pt := PruningType.hard
    roundSparsityVal := 0, repruneTarget := 1 }

/-- Layer whose largest-gradient position is already active: weights [3,2],
gradients [5,1], mask [1,0]. -/
def c2Layer : Layer := { weight := [3, 2], grad := [5, 1], mask := [true, false] }

/-- All-active three-element layer used to exercise layer_prune. -/
def c6Layer : Layer := { weight := [5, 1, 3], grad := [0, 0, 0], mask := [true, true, true] }

/-- Two-element layer used to exercise the layer_prune skip branch. -/
def c9Layer : Layer := { weight := [1, 2], grad := [0, 0], mask := [true, true] }

/-- Small network state with one masked-out position. -/
def c10Net : NetState := { weight := [1, 2], mask := [true, false], bias := [3] }

/-! ### Helper lemmas -/

theorem getD_range_map {α : Type} (f : ℕ → α) (d : α) {j n : ℕ} (h : j < n) :
    (((List.range n).map f).getD j d) = f j := by
  simp [List.getD_eq_getElem?_getD, List.getElem?_map, List.getElem?_range, h]

theorem length_range_map {α : Type} (f : ℕ → α) (n : ℕ) :
    ((List.range n).map f).length = n := by
  simp

theorem setAtQ_length (xs : List ℚ) (idxs : List ℕ) (v : ℚ) :
    (setAtQ xs idxs v).length = xs.length := by
  simp [setAtQ]

theorem setAtB_length (xs : List Bool) (idxs : List ℕ) (v : Bool) :
    (setAtB xs idxs v).length = xs.length := by
  simp [setAtB]

theorem setAtQ_getD (xs : List ℚ) (idxs : List ℕ) (v : ℚ) {j : ℕ}
    (h : j < xs.length) :
    (setAtQ xs idxs v).getD j 0 = if j ∈ idxs then v else xs.getD j 0 := by
  unfold setAtQ
  rw [getD_range_map _ _ h]

theorem setAtB_getD (xs : List Bool) (idxs : List ℕ) (v : Bool) {j : ℕ}
    (h : j < xs.length) :
    (setAtB xs idxs v).getD j false = if j ∈ idxs then v else xs.getD j false := by
  unfold setAtB
  rw [getD_range_map _ _ h]

theorem minPair_mem (b : ℕ × ℚ) (xs : List (ℕ × ℚ)) :
    minPair b xs = b ∨ minPair b xs ∈ xs := by
  induction xs generalizing b with
  | nil => left; rfl
  | cons x xs ih =>
    simp only [minPair]
    rcases ih (if b.2 ≤ x.2 then b else x) with h | h
    · rw [h]
      by_cases hle : b.2 ≤ x.2
      · left; rw [if_pos hle]
      · right; rw [if_neg hle]; exact List.mem_cons_self _ _
    · right; exact List.mem_cons_of_mem _ h

theorem minPair_le_base (b : ℕ × ℚ) (xs : List (ℕ × ℚ)) :
    (minPair b xs).2 ≤ b.2 := by
  induction xs generalizing b with
  | nil => exact le_refl _
  | cons x xs ih =>
    simp only [minPair]
    refine le_trans (ih _) ?hle
    by_cases hle : b.2 ≤ x.2
    · rw [if_pos hle]
    · rw [if_neg hle]; exact le_of_not_le hle

theorem minPair_le_mem (b : ℕ × ℚ) (xs : List (ℕ × ℚ)) :
    ∀ p ∈ xs, (minPair b xs).2 ≤ p.2 := by
  induction xs generalizing b with
  | nil => intro p hp; simp at hp
  | cons x xs ih =>
    intro p hp
    simp only [minPair]
    rcases List.mem_cons.mp hp with hp | hp
    · subst hp
      refine le_trans (minPair_le_base _ _) ?hle
      by_cases hle : b.2 ≤ p.2
      · rw [if_pos hle]; exact hle
      · rw [if_neg hle]
    · exact ih _ p hp

theorem minPair_mem_cons (b : ℕ × ℚ) (xs : List (ℕ × ℚ)) :
    minPair b xs ∈ b :: xs := by
  rcases minPair_mem b xs with h | h
  · rw [h]; exact List.mem_cons_self _ _
  · exact List.mem_cons_of_mem _ h

theorem minPair_min_cons (b : ℕ × ℚ) (xs : List (ℕ × ℚ)) :
    ∀ p ∈ b :: xs, (minPair b xs).2 ≤ p.2 := by
  intro p hp
  rcases List.mem_cons.mp hp with hp | hp
  · rw [hp]; exact minPair_le_base b xs
  · exact minPair_le_mem b xs p hp

theorem mem_topkPairs {k : ℕ} {ps : List (ℕ × ℚ)} {i : ℕ}
    (h : i ∈ topkPairs k ps) : ∃ v, (i, v) ∈ ps := by
  induction k generalizing ps with
  | zero => simp [topkPairs] at h
  | succ k ih =>
    cases ps with
    | nil => simp [topkPairs] at h
    | cons p ps =>
      simp only [topkPairs] at h
      rcases List.mem_cons.mp h with h | h
      · refine ⟨(minPair p ps).2, ?hm⟩
        rw [h]
        simpa using minPair_mem_cons p ps
      · rcases ih h with ⟨v, hv⟩
        exact ⟨v, List.mem_of_mem_filter hv⟩

theorem topkPairs_min {k : ℕ} {ps : List (ℕ × ℚ)} (hnd : (ps.map Prod.fst).Nodup)
    {i j : ℕ} {vi vj : ℚ} (hi : i ∈ topkPairs k ps) (hvi : (i, vi) ∈ ps)
    (hvj : (j, vj) ∈ ps) (hj : j ∉ topkPairs k ps) : vi ≤ vj := by
  induction k generalizing ps with
  | zero => simp [topkPairs] at hi
  | succ k ih =>
    cases ps with
    | nil => simp at hvi
    | cons p ps =>
      simp only [topkPairs] at hi hj
      rcases List.mem_cons.mp hi with hi1 | hi2
      · have hqv : (i, vi) = minPair p ps :=
          List.inj_on_of_nodup_map hnd hvi (minPair_mem_cons p ps) (by rw [hi1])
        have : vi = (minPair p ps).2 := by rw [← hqv]
        rw [this]
        exact minPair_min_cons p ps _ hvj
      · have hine : i ≠ (minPair p ps).1 := by
          rcases mem_topkPairs hi2 with ⟨v, hv⟩
          have := (List.mem_filter.mp hv).2
          simpa using this
        have hjne : j ≠ (minPair p ps).1 := by
          intro hj1
          exact hj (List.mem_cons.mpr (Or.inl hj1))
        have hvi2 : (i, vi) ∈ (p :: ps).filter fun x => decide (x.1 ≠ (minPair p ps).1) :=
          List.mem_filter.mpr ⟨hvi, by simpa using hine⟩
        have hvj2 : (j, vj) ∈ (p :: ps).filter fun x => decide (x.1 ≠ (minPair p ps).1) :=
          List.mem_filter.mpr ⟨hvj, by simpa using hjne⟩
        have hj2 : j ∉ topkPairs k ((p :: ps).filter fun x => decide (x.1 ≠ (minPair p ps).1)) := by
          intro hc
          exact hj (List.mem_cons.mpr (Or.inr hc))
        have hnd2 : (((p :: ps).filter fun x => decide (x.1 ≠ (minPair p ps).1)).map Prod.fst).Nodup :=
          List.Nodup.sublist ((List.filter_sublist (p :: ps)).map Prod.fst) hnd
        exact ih hnd2 hi2 hvi2 hvj2 hj2

/-- The enumerated key pairs that topkSmallestIdx runs on. -/
theorem mem_keyPairs {key : List ℚ} {i : ℕ} {v : ℚ} :
    ((i, v) ∈ (List.range key.length).map fun a => (a, key.getD a 0)) ↔
      i < key.length ∧ v = key.getD i 0 := by
  constructor
  · intro h
    rcases List.mem_map.mp h with ⟨a, ha, hav⟩
    rcases Prod.mk.injEq .. ▸ hav with h2
    have h3 : a = i ∧ key.getD a 0 = v := Prod.mk.injEq .. ▸ hav
    rcases h3 with ⟨rfl, rfl⟩
    exact ⟨List.mem_range.mp ha, rfl⟩
  · intro ⟨h1, h2⟩
    exact List.mem_map.mpr ⟨i, List.mem_range.mpr h1, by rw [h2]⟩

theorem keyPairs_fst_nodup (key : List ℚ) :
    ((((List.range key.length).map fun a => (a, key.getD a 0))).map Prod.fst).Nodup := by
  rw [List.map_map]
  have hid : (Prod.fst ∘ fun a => (a, key.getD a 0)) = id := rfl
  rw [hid, List.map_id]
  exact List.nodup_range key.length

theorem mem_topkSmallestIdx {key : List ℚ} {k i : ℕ}
    (h : i ∈ topkSmallestIdx key k) : i < key.length := by
  rcases mem_topkPairs h with ⟨v, hv⟩
  exact (mem_keyPairs.mp hv).1

theorem topkSmallestIdx_min {key : List ℚ} {k i j : ℕ}
    (hi : i ∈ topkSmallestIdx key k) (hjlt : j < key.length)
    (hj : j ∉ topkSmallestIdx key k) : key.getD i 0 ≤ key.getD j 0 := by
  have hilt : i < key.length := mem_topkSmallestIdx hi
  exact topkPairs_min (keyPairs_fst_nodup key) hi
    (mem_keyPairs.mpr ⟨hilt, rfl⟩) (mem_keyPairs.mpr ⟨hjlt, rfl⟩) hj

theorem getD_map_of_lt (f : ℚ → ℚ) (xs : List ℚ) {i : ℕ} (h : i < xs.length) :
    (xs.map f).getD i 0 = f (xs.getD i 0) := by
  simp [List.getD_eq_getElem?_getD, List.getElem?_map, List.getElem?_eq_getElem h]

theorem layerPrune_mask_length (pt : PruningType) (target : ℤ) (l : Layer) :
    (layerPrune pt target l).mask.length = l.mask.length := by
  simp only [layerPrune]
  split
  · rfl
  · exact setAtB_length _ _ _

theorem layerPrune_mask_mono (pt : PruningType) (target : ℤ) (l : Layer) (j : ℕ)
    (h : l.mask.getD j false = false) :
    (layerPrune pt target l).mask.getD j false = false := by
  simp only [layerPrune]
  split
  · exact h
  · show (setAtB l.mask _ false).getD j false = false
    by_cases hj : j < l.mask.length
    · rw [setAtB_getD _ _ _ hj]
      split
      · rfl
      · exact h
    · exact List.getD_eq_default _ _ (by rw [setAtB_length]; exact le_of_not_lt hj)

/-! ### Claim theorems -/

/-- C9: when layer_prune computes `n_prune = n_total - target` with n_prune
negative or at least n_total, the layer's weights and masks are left
entirely unchanged (models.py:161-163). -/
theorem c9_layer_prune_skip (pt : PruningType) (target : ℤ) (l : Layer)
    (h : (l.mask.length : ℤ) - target ≥ (l.mask.length : ℤ) ∨
      (l.mask.length : ℤ) - target < 0) :
    layerPrune pt target l = l := by
  simp only [layerPrune]
  rw [if_pos h]

/-- Witness for C9: pruning a 2-slot layer to target count 5 gives
`n_prune = -3 < 0` and is a no-op. -/
theorem c9_layer_prune_skip_witness :
    layerPrune PruningType.hard 5 c9Layer = c9Layer :=
  c9_layer_prune_skip PruningType.hard 5 c9Layer (by decide)

/-- C6: for a valid `n_prune = n_total - target`, every position selected
by the smallest-absolute-magnitude top-k gets weight exactly 0 and mask bit
0 under hard pruning, and keeps its weight value unchanged while its mask
bit becomes 0 under soft pruning; the selected positions carry weight
magnitudes no larger than any unselected position's
(models.py:166-180). -/
theorem c6_layer_prune_selected (pt : PruningType) (target : ℤ) (l : Layer)
    (hlen : l.mask.length = l.weight.length)
    (hv : ¬((l.mask.length : ℤ) - target ≥ (l.mask.length : ℤ) ∨
      (l.mask.length : ℤ) - target < 0)) :
    ∀ i ∈ pruneSel l ((l.mask.length : ℤ) - target).toNat,
      (pt = PruningType.hard → (layerPrune pt target l).weight.getD i 0 = 0) ∧
      (pt = PruningType.soft →
        (layerPrune pt target l).weight.getD i 0 = l.weight.getD i 0) ∧
      (layerPrune pt target l).mask.getD i false = false ∧
      (∀ j, j < l.weight.length →
        j ∉ pruneSel l ((l.mask.length : ℤ) - target).toNat →
        |l.weight.getD i 0| ≤ |l.weight.getD j 0|) := by
  intro i hi
  have hilt : i < l.weight.length := by
    have := mem_topkSmallestIdx hi
    simpa using this
  have hprune : layerPrune pt target l =
      { l with
        weight :=
          if pt = PruningType.hard then
            setAtQ l.weight (pruneSel l ((l.mask.length : ℤ) - target).toNat) 0
          else l.weight
        mask := setAtB l.mask (pruneSel l ((l.mask.length : ℤ) - target).toNat) false } := by
    simp only [layerPrune]
    rw [if_neg hv]
  refine ⟨?hard, ?soft, ?mask, ?min⟩
  · intro hpt
    rw [hprune, hpt]
    show (setAtQ l.weight _ 0).getD i 0 = 0
    rw [setAtQ_getD _ _ _ hilt, if_pos hi]
  · intro hpt
    rw [hprune, hpt]
    rw [if_neg (by decide : ¬(PruningType.soft = PruningType.hard))]
  · rw [hprune]
    show (setAtB l.mask _ false).getD i false = false
    rw [setAtB_getD _ _ _ (hlen ▸ hilt), if_pos hi]
  · intro j hjlt hj
    have := @topkSmallestIdx_min (l.weight.map fun x => |x|)
      (((l.mask.length : ℤ) - target).toNat) i j
      (by simpa [pruneSel] using hi) (by simpa using hjlt) (by simpa [pruneSel] using hj)
    rw [getD_map_of_lt _ _ hilt, getD_map_of_lt _ _ hjlt] at this
    exact this

/-- Witness for C6: in layer (weights [5,1,3], all-ones mask) pruned hard to
target count 2, the selected position 1 ends with weight 0 and mask 0. -/
theorem c6_layer_prune_selected_witness :
    (layerPrune PruningType.hard 2 c6Layer).weight.getD 1 0 = 0 ∧
    (layerPrune PruningType.hard 2 c6Layer).mask.getD 1 false = false := by
  have h := c6_layer_prune_selected PruningType.hard 2 c6Layer (by decide) (by decide)
    1 (by decide)
  exact ⟨h.1 rfl, h.2.2.1⟩

/-- C2 counterexample: in the layer with weights [3,2], gradients [5,1] and
mask [1,0], growing to target count 2 should — per the claim — activate the
inactive position 1 (the inactive weight with the largest gradient) and
change nothing else; the code instead selects position 0 (largest gradient
over ALL positions, models.py:214) and zeroes the active weight there: the
result keeps mask [1,0] and sets the weights to [0,2]. -/
theorem c2_layer_grow_counterexample :
    (layerGrow 2 c2Layer).mask = [true, false] ∧
    (layerGrow 2 c2Layer).weight = [0, 2] ∧
    (layerGrow 2 c2Layer).mask.getD 1 false = false ∧
    (layerGrow 2 c2Layer).weight.getD 0 0 ≠ c2Layer.weight.getD 0 0 := by decide

/-- C2 amended: layer_grow computes `n_grow = target - count_nonzero(mask)`;
if negative the layer is untouched; otherwise it selects the n_grow
positions with the largest absolute gradient magnitude among ALL positions
(active or not), sets exactly those mask bits to 1 and those weights to 0,
and changes no other weight value or mask bit (models.py:198-221). -/
theorem c2_layer_grow_amended (target : ℤ) (l : Layer)
    (hg : l.grad.length = l.weight.length)
    (hm : l.mask.length = l.weight.length) :
    (target - (countTrue l.mask : ℤ) < 0 → layerGrow target l = l) ∧
    (¬(target - (countTrue l.mask : ℤ) < 0) →
      (∀ i ∈ growSel l (target - (countTrue l.mask : ℤ)).toNat,
        (layerGrow target l).weight.getD i 0 = 0 ∧
        (layerGrow target l).mask.getD i false = true ∧
        (∀ j, j < l.grad.length →
          j ∉ growSel l (target - (countTrue l.mask : ℤ)).toNat →
          |l.grad.getD j 0| ≤ |l.grad.getD i 0|)) ∧
      (∀ j, j < l.weight.length →
        j ∉ growSel l (target - (countTrue l.mask : ℤ)).toNat →
        (layerGrow target l).weight.getD j 0 = l.weight.getD j 0 ∧
        (layerGrow target l).mask.getD j false = l.mask.getD j false)) := by
  constructor
  · intro hneg
    simp only [layerGrow]
    rw [if_pos hneg]
  · intro hpos
    have hgrow : layerGrow target l =
        { l with
          weight := setAtQ l.weight (growSel l (target - (countTrue l.mask : ℤ)).toNat) 0
          mask := setAtB l.mask (growSel l (target - (countTrue l.mask : ℤ)).toNat) true } := by
      simp only [layerGrow]
      rw [if_neg hpos]
    constructor
    · intro i hi
      have hilt : i < l.grad.length := by
        have := mem_topkSmallestIdx hi
        simpa using this
      refine ⟨?w, ?m, ?min⟩
      · rw [hgrow]
        show (setAtQ l.weight _ 0).getD i 0 = 0
        rw [setAtQ_getD _ _ _ (hg ▸ hilt), if_pos hi]
      · rw [hgrow]
        show (setAtB l.mask _ true).getD i false = true
        rw [setAtB_getD _ _ _ ((hg ▸ hm.symm) ▸ hilt), if_pos hi]
      · intro j hjlt hj
        have := @topkSmallestIdx_min (l.grad.map fun x => -|x|)
          ((target - (countTrue l.mask : ℤ)).toNat) i j
          (by simpa [growSel] using hi) (by simpa using hjlt) (by simpa [growSel] using hj)
        rw [getD_map_of_lt _ _ hilt, getD_map_of_lt _ _ hjlt] at this
        exact neg_le_neg_iff.mp this
    · intro j hjlt hj
      constructor
      · rw [hgrow]
        show (setAtQ l.weight _ 0).getD j 0 = l.weight.getD j 0
        rw [setAtQ_getD _ _ _ hjlt, if_neg hj]
      · rw [hgrow]
        show (setAtB l.mask _ true).getD j false = l.mask.getD j false
        rw [setAtB_getD _ _ _ (hm ▸ hjlt), if_neg hj]

/-- Witness for C2 amended: growing the [3,2]/[5,1]/[1,0] layer to target
count 2 zeroes the selected position 0 and activates its mask bit, while
position 1 keeps its weight and mask. -/
theorem c2_layer_grow_amended_witness :
    (layerGrow 2 c2Layer).weight.getD 0 0 = 0 ∧
    (layerGrow 2 c2Layer).mask.getD 0 false = true ∧
    (layerGrow 2 c2Layer).weight.getD 1 0 = c2Layer.weight.getD 1 0 ∧
    (layerGrow 2 c2Layer).mask.getD 1 false = c2Layer.mask.getD 1 false := by
  have h := c2_layer_grow_amended 2 c2Layer (by decide) (by decide)
  have h2 := h.2 (by decide)
  have hs := h2.1 0 (by decide)
  have hf := h2.2 1 (by decide) (by decide)
  exact ⟨hs.1, hs.2.1, hf.1, hf.2⟩

/-- C3 counterexample: with fp16 upload, zero sparsity, mask_size 1 and
param_size 64 bits, the code charges `16 + (64 - 16) = 64` bits
(dst_adapter.py:326) while the claimed formula gives `16 + (64 - 32) = 48`:
the unmasked-parameter term subtracts `mask_size*16`, not `mask_size*32`,
under fp16. -/
theorem c3_ul_cost_counterexample :
    ulCostParams true 0 1 64 = 64 ∧ ulCostSpec true 0 1 64 = 48 ∧
    ulCostParams true 0 1 64 ≠ ulCostSpec true 0 1 64 := by
  refine ⟨?e1, ?e2, ?e3⟩ <;> norm_num [ulCostParams, ulCostSpec]

/-- C3 amended: the upload parameter cost equals
`(1-sparsity)*mask_size*width + (param_size - mask_size*width)` where width
is 16 when fp16 upload is enabled and 32 otherwise — the subtracted term
uses the same width as the masked-weight term (dst_adapter.py:325-328). -/
theorem c3_ul_cost_amended (fp16 : Bool) (sparsity : ℚ) (maskSize paramSize : ℕ) :
    ulCostParams fp16 sparsity maskSize paramSize =
      (1 - sparsity) * maskSize * ulWidth fp16 +
        ((paramSize : ℚ) - maskSize * ulWidth fp16) := by
  cases fp16 <;> simp [ulCostParams, ulWidth]

/-- C4: on a readjustment epoch the client prunes to the overshoot sparsity
`s + (1-s)*readjustment_ratio` and grows back to `s`, where `s` is train's
sparsity parameter; the round loop (dst_adapter.py:466) passes no sparsity
argument, so `s` is args.sparsity, not the round's interpolated target.
With args.sparsity = 1/10, final_sparsity = 1/2, rate_decay_end = 2, at
server_round 1 the round target is 3/10 but the client grows back
to 1/10. -/
theorem c4_readjust_grow_target :
    (readjustTargets (trainSparsityArg (1/10) dstAdapterTrainCallArg) (1/2)).1 = 11/20 ∧
    (readjustTargets (trainSparsityArg (1/10) dstAdapterTrainCallArg) (1/2)).2 = 1/10 ∧
    roundSparsity (1/10) (1/2) 2 1 = 3/10 ∧
    (readjustTargets (trainSparsityArg (1/10) dstAdapterTrainCallArg) (1/2)).2 ≠
      roundSparsity (1/10) (1/2) 2 1 := by
  refine ⟨?e1, ?e2, ?e3, ?e4⟩ <;>
    norm_num [readjustTargets, trainSparsityArg, dstAdapterTrainCallArg, roundSparsity]

/-- C10: reset_weights called with global_state=None, use_global_mask=False
and global_communication_mask=False (the per-step apply-the-local-mask call,
dst_adapter.py:306) returns mask_changed=False, leaves the mask and the
unmasked parameters bit-identical, and only weight values at masked-out
positions may change — zeroed under hard pruning, untouched under soft. -/
theorem c10_reset_weights_local (net : NetState) (pt : PruningType) :
    (resetWeights net none false false pt).2 = false ∧
    (resetWeights net none false false pt).1.mask = net.mask ∧
    (resetWeights net none false false pt).1.bias = net.bias ∧
    (resetWeights net none false false pt).1.weight.length = net.weight.length ∧
    (∀ j, j < net.weight.length →
      (resetWeights net none false false pt).1.weight.getD j 0 =
        if net.mask.getD j false then net.weight.getD j 0
        else if pt = PruningType.hard then 0 else net.weight.getD j 0) := by
  refine ⟨?flag, rfl, rfl, ?len, ?w⟩
  · simp [resetWeights]
  · simp [resetWeights]
  · intro j hj
    show ((List.range net.weight.length).map _).getD j 0 = _
    rw [getD_range_map _ _ hj]
    simp

/-- Witness for C10: on the [1,2]/[1,0]/[3] state under hard pruning, the
call reports no mask change, keeps mask and bias, and zeroes the
masked-out weight at position 1. -/
theorem c10_reset_weights_local_witness :
    (resetWeights c10Net none false false PruningType.hard).2 = false ∧
    (resetWeights c10Net none false false PruningType.hard).1.mask = c10Net.mask ∧
    (resetWeights c10Net none false false PruningType.hard).1.bias = c10Net.bias ∧
    (resetWeights c10Net none false false PruningType.hard).1.weight.getD 1 0 = 0 := by
  have h := c10_reset_weights_local c10Net PruningType.hard
  refine ⟨h.1, h.2.1, h.2.2.1, ?w⟩
  have h5 := h.2.2.2.2 1 (by decide)
  rw [h5]
  decide

/-- C1: with remember_old enabled and a client whose mask is 0 at a
position where the global mask is 1 (global weight 7, train size 2), the
reduced `sum_params` is 0 there and the remember-augmented accumulator
after the division at dst_adapter.py:536 holds 7; but the assignment at
dst_adapter.py:544 stores `nan_to_num(aggregated_params)` — not
`aggregated_params_for_mask` — so the view loaded into the global model
equals the reduced `sum_params` and is 0, not nonzero as the claim
requires: the remember-old fold-in of lines 510-514 never reaches the
loaded parameters. -/
theorem c1_remember_view_discarded :
    sumParamsAt c1Input 0 = 0 ∧
    aggParamForMaskPreAt c1Input 0 = 7 ∧
    aggParamForMaskAt c1Input 0 = aggParamAt c1Input 0 ∧
    loadedWeight c1Input = [0] := by
  have hm : sumMasksAt c1Input 0 = 2 := by
    norm_num [sumMasksAt, c1Input, b2q]
  have hp : sumParamsAt c1Input 0 = 0 := by
    norm_num [sumParamsAt, c1Input, b2q]
  have hpm : sumParamsForMaskAt c1Input 0 = 14 := by
    norm_num [sumParamsForMaskAt, c1Input, b2q]
  have ht : threshVotesAt c1Input 0 = 2 := by
    rw [threshVotesAt, hm]
    norm_num [c1Input]
  refine ⟨hp, ?pre, rfl, ?load⟩
  · rw [aggParamForMaskPreAt, hpm, ht]
    norm_num
  · have ha : aggParamAt c1Input 0 = 0 := by
      rw [aggParamAt, hp, ht]
      norm_num
    show ((List.range (roundLen c1Input)).map fun j => aggParamForMaskAt c1Input j) = [0]
    have hr : roundLen c1Input = 1 := rfl
    rw [hr]
    show [aggParamForMaskAt c1Input 0] = [0]
    rw [show aggParamForMaskAt c1Input 0 = aggParamAt c1Input 0 from rfl, ha]

/-- C7: if the accumulated train-size-weighted vote count at a position is
at or below min_votes, the aggregated 0/1 mask is 0 there
(dst_adapter.py:531,537,546) and the position is 0 in the next global mask,
surviving neither the load at line 555 nor the optional server reprune. -/
theorem c7_min_votes_threshold (inp : RoundInput) (j : ℕ)
    (h : sumMasksAt inp j ≤ inp.minVotes) :
    aggMaskAt inp j = 0 ∧ (publishedMask inp).getD j false = false := by
  have hz : threshVotesAt inp j = 0 := by
    rw [threshVotesAt, if_pos h]
  have hmz : aggMaskAt inp j = 0 := by
    rw [aggMaskAt, hz]
    norm_num
  refine ⟨hmz, ?pub⟩
  have hload : (loadedMask inp).getD j false = false := by
    by_cases hj : j < roundLen inp
    · show (((List.range (roundLen inp)).map fun a => decide (aggMaskAt inp a ≠ 0)).getD j false) = false
      rw [getD_range_map _ _ hj]
      simp [hmz]
    · refine List.getD_eq_default _ _ ?hge
      show ((List.range (roundLen inp)).map fun a => decide (aggMaskAt inp a ≠ 0)).length ≤ j
      rw [length_range_map]
      exact le_of_not_lt hj
  show (globalAfterReprune inp).mask.getD j false = false
  unfold globalAfterReprune
  split
  · exact layerPrune_mask_mono _ _ _ _ hload
  · exact hload

/-- Witness for C7: in a round where the single sampled client has mask 0
at the only position and min_votes = 0, the vote count 0 is at the
threshold, the aggregated mask is 0 and the published mask bit is 0. -/
theorem c7_min_votes_threshold_witness :
    aggMaskAt cwInput 0 = 0 ∧ (publishedMask cwInput).getD 0 false = false :=
  c7_min_votes_threshold cwInput 0 (by norm_num [sumMasksAt, cwInput, b2q])

/-- C5: the published global model matches its own mask exactly: at every
position whose final mask bit is 0, the published weight is exactly 0
(dst_adapter.py:563-569 forces elements outside the new mask to zero
before the final load). -/
theorem c5_published_matches_mask (inp : RoundInput) (j : ℕ)
    (h : (publishedMask inp).getD j false = false) :
    (publishedWeight inp).getD j 0 = 0 := by
  by_cases hj : j < roundLen inp
  · show (((List.range (roundLen inp)).map fun a =>
      if (publishedMask inp).getD a false then aggParamAt inp a else 0).getD j 0) = 0
    rw [getD_range_map _ _ hj, h]
    simp
  · refine List.getD_eq_default _ _ ?hge
    show ((List.range (roundLen inp)).map fun a =>
      if (publishedMask inp).getD a false then aggParamAt inp a else 0).length ≤ j
    rw [length_range_map]
    exact le_of_not_lt hj

/-- Witness for C5: in the zero-vote single-client round, the published
mask bit at position 0 is 0 and so is the published weight. -/
theorem c5_published_matches_mask_witness :
    (publishedWeight cwInput).getD 0 0 = 0 := by
  have hm : sumMasksAt cwInput 0 = 0 := by
    norm_num [sumMasksAt, cwInput, b2q]
  have ht : threshVotesAt cwInput 0 = 0 := by
    rw [threshVotesAt, hm]
    norm_num [cwInput]
  have hmask : aggMaskAt cwInput 0 = 0 := by
    rw [aggMaskAt, ht]
    norm_num
  have hload : loadedMask cwInput = [false] := by
    show [decide (aggMaskAt cwInput 0 ≠ 0)] = [false]
    rw [hmask]
    norm_num
  have hs : ¬(sparsityOf (loadedMask cwInput) < cwInput.roundSparsityVal) := by
    rw [hload]
    norm_num [sparsityOf, countTrue, cwInput]
  have hpm : (publishedMask cwInput).getD 0 false = false := by
    show (globalAfterReprune cwInput).mask.getD 0 false = false
    unfold globalAfterReprune
    rw [if_neg hs]
    show (loadedMask cwInput).getD 0 false = false
    rw [hload]
    rfl
  exact c5_published_matches_mask cwInput 0 hpm

/-- C8 counterexample: with equal train sizes 1 (and min_votes = 1,
remember_old off), the single-voter positions 1 and 2 carry vote count 1,
which `F.threshold_(·, 1, 0)` zeroes (values at or below the threshold are
dropped, dst_adapter.py:531), so the aggregated mask is [1,0,0] — not the
claimed [1,1,1] — and position 1 aggregates to 0, not 5. -/
theorem c8_scenario_counterexample :
    loadedMask (c8Input 1) = [true, false, false] ∧
    aggParamAt (c8Input 1) 1 = 0 := by
  have hm0 : sumMasksAt (c8Input 1) 0 = 2 := by
    norm_num [sumMasksAt, c8Input, b2q]
  have hm1 : sumMasksAt (c8Input 1) 1 = 1 := by
    norm_num [sumMasksAt, c8Input, b2q]
  have hm2 : sumMasksAt (c8Input 1) 2 = 1 := by
    norm_num [sumMasksAt, c8Input, b2q]
  have ht0 : threshVotesAt (c8Input 1) 0 = 2 := by
    rw [threshVotesAt, hm0]
    norm_num [c8Input]
  have ht1 : threshVotesAt (c8Input 1) 1 = 0 := by
    rw [threshVotesAt, hm1]
    norm_num [c8Input]
  have ht2 : threshVotesAt (c8Input 1) 2 = 0 := by
    rw [threshVotesAt, hm2]
    norm_num [c8Input]
  have ha0 : aggMaskAt (c8Input 1) 0 = 1 := by
    rw [aggMaskAt, ht0]
    norm_num
  have ha1 : aggMaskAt (c8Input 1) 1 = 0 := by
    rw [aggMaskAt, ht1]
    norm_num
  have ha2 : aggMaskAt (c8Input 1) 2 = 0 := by
    rw [aggMaskAt, ht2]
    norm_num
  constructor
  · show [decide (aggMaskAt (c8Input 1) 0 ≠ 0), decide (aggMaskAt (c8Input 1) 1 ≠ 0),
      decide (aggMaskAt (c8Input 1) 2 ≠ 0)] = [true, false, false]
    rw [ha0, ha1, ha2]
    norm_num
  · rw [aggParamAt, ht1]
    norm_num

/-- C8 amended: the example scenario holds whenever the equal train sizes
strictly exceed min_votes = 1 (so a single weighted vote survives the
at-or-below threshold): masks [1,0,1]/[1,1,0], weights [2,_,4]/[3,5,_]
aggregate to mask [1,1,1] with position 0 averaging 5/2, position 1 taking
5 and position 2 taking 4. -/
theorem c8_scenario_amended (ts : ℚ) (h : 1 < ts) :
    loadedMask (c8Input ts) = [true, true, true] ∧
    aggParamAt (c8Input ts) 0 = 5 / 2 ∧
    aggParamAt (c8Input ts) 1 = 5 ∧
    aggParamAt (c8Input ts) 2 = 4 := by
  have hts : ts ≠ 0 := by
    intro hc
    rw [hc] at h
    norm_num at h
  have hm0 : sumMasksAt (c8Input ts) 0 = ts + ts := by
    simp [sumMasksAt, c8Input, b2q]
  have hm1 : sumMasksAt (c8Input ts) 1 = ts := by
    simp [sumMasksAt, c8Input, b2q]
  have hm2 : sumMasksAt (c8Input ts) 2 = ts := by
    simp [sumMasksAt, c8Input, b2q]
  have hp0 : sumParamsAt (c8Input ts) 0 = ts * 2 + ts * 3 := by
    simp [sumParamsAt, c8Input, b2q]
  have hp1 : sumParamsAt (c8Input ts) 1 = ts * 5 := by
    simp [sumParamsAt, c8Input, b2q]
  have hp2 : sumParamsAt (c8Input ts) 2 = ts * 4 := by
    simp [sumParamsAt, c8Input, b2q]
  have ht0 : threshVotesAt (c8Input ts) 0 = ts + ts := by
    rw [threshVotesAt, hm0]
    simp only [c8Input]
    rw [if_neg (not_le.mpr (by linarith))]
  have ht1 : threshVotesAt (c8Input ts) 1 = ts := by
    rw [threshVotesAt, hm1]
    simp only [c8Input]
    rw [if_neg (not_le.mpr (by linarith))]
  have ht2 : threshVotesAt (c8Input ts) 2 = ts := by
    rw [threshVotesAt, hm2]
    simp only [c8Input]
    rw [if_neg (not_le.mpr (by linarith))]
  have ha0 : aggMaskAt (c8Input ts) 0 = 1 := by
    rw [aggMaskAt, ht0]
    exact div_self (by linarith)
  have ha1 : aggMaskAt (c8Input ts) 1 = 1 := by
    rw [aggMaskAt, ht1]
    exact div_self hts
  have ha2 : aggMaskAt (c8Input ts) 2 = 1 := by
    rw [aggMaskAt, ht2]
    exact div_self hts
  refine ⟨?mask, ?v0, ?v1, ?v2⟩
  · show [decide (aggMaskAt (c8Input ts) 0 ≠ 0), decide (aggMaskAt (c8Input ts) 1 ≠ 0),
      decide (aggMaskAt (c8Input ts) 2 ≠ 0)] = [true, true, true]
    rw [ha0, ha1, ha2]
    norm_num
  · rw [aggParamAt, hp0, ht0]
    rw [div_eq_iff (by linarith : ts + ts ≠ 0)]
    ring
  · rw [aggParamAt, hp1, ht1]
    rw [div_eq_iff hts]
    ring
  · rw [aggParamAt, hp2, ht2]
    rw [div_eq_iff hts]
    ring

/-- Witness for C8 amended: with equal train sizes 2 the scenario produces
mask [1,1,1] and values [5/2, 5, 4]. -/
theorem c8_scenario_amended_witness :
    loadedMask (c8Input 2) = [true, true, true] ∧
    aggParamAt (c8Input 2) 0 = 5 / 2 ∧
    aggParamAt (c8Input 2) 1 = 5 ∧
    aggParamAt (c8Input 2) 2 = 4 :=
  c8_scenario_amended 2 (by norm_num)

end FedPrune
